import Mathlib

/-!
Verification development for `rdiff-snapshot-fs.py`, a FUSE filesystem that
exposes read-only historical snapshots of an rdiff-backup repository.

The Python source is shallowly embedded below.  Filesystem effects
(`os.listdir`, `os.lstat`) are modelled by an explicit environment `Env`
carrying the directory listings and stat oracles; the external
`rdiff-backup --force SRC DEST` restore invocation is modelled as an
observable event recorded in the result of `DeferredFile.read`.
Python exceptions that escape a function are modelled with `Except` /
`Option` results; exceptions that the source catches (`except OSError`)
are modelled by the corresponding `Option`-valued oracle.
-/

/-! ## File types (source lines 90-104) -/

inductive FileType where
  | NONEXISTENT
  | REGULAR_FILE
  | DIRECTORY
  | LINK
  deriving DecidableEq

/-! ## Increment filename parsing (source lines 43-88)

`INCREMENT_FILE_PATTERN` is the anchored regex
`^(.*)\.([0-9]{4}-[0-9]{2}-[0-9]{2}T[0-9]{2}:[0-9]{2}:[0-9]{2}-[0-9]{2}:[0-9]{2})\.((diff|snapshot)\.gz|snapshot|dir|missing)$`.
The timestamp group has a fixed length of 25 characters and none of the five
suffix alternatives is a (string-)suffix of another, so a match decomposition
is unique and greedy backtracking is irrelevant; we implement the match by
scanning the filename from its end (i.e. over the reversed character list).
`parse_increment_filename` returns `none` where the Python function raises
`ValueError`. -/

/-- `dropPrefixL p s = some r` iff `s = p ++ r`. -/
def dropPrefixL : List Char → List Char → Option (List Char)
  | [], s => some s
  | _ :: _, [] => none
  | c :: cs, d :: ds => if c = d then dropPrefixL cs ds else none

/-- Split off exactly `n` leading characters. -/
def splitN : Nat → List Char → Option (List Char × List Char)
  | 0, s => some ([], s)
  | _ + 1, [] => none
  | n + 1, c :: cs => (splitN n cs).map fun p => (c :: p.1, p.2)

def digitP (c : Char) : Bool := c.isDigit

def chP (d : Char) (c : Char) : Bool := c = d

/-- Character-class list for the timestamp group
`[0-9]{4}-[0-9]{2}-[0-9]{2}T[0-9]{2}:[0-9]{2}:[0-9]{2}-[0-9]{2}:[0-9]{2}`.
Note the hard-coded minus sign before the UTC offset, exactly as in the
source regex. -/
def tsShape : List (Char → Bool) :=
  [digitP, digitP, digitP, digitP, chP '-', digitP, digitP, chP '-',
   digitP, digitP, chP 'T', digitP, digitP, chP ':', digitP, digitP,
   chP ':', digitP, digitP, chP '-', digitP, digitP, chP ':', digitP, digitP]

/-- `matchShape shape s` holds iff `s` has the same length as `shape` and each
character satisfies the corresponding class. -/
def matchShape : List (Char → Bool) → List Char → Bool
  | [], [] => true
  | p :: ps, c :: cs => p c && matchShape ps cs
  | _, _ => false

/-- The five suffix alternatives of the regex, in alternation order. -/
def sufStrings : List String := ["diff.gz", "snapshot.gz", "snapshot", "dir", "missing"]

/-- Try to match the regex assuming the suffix alternative `suf`; `r` is the
reversed character list of the filename.  The basename group `(.*)` matches
any characters except newline. -/
def parseRev (r : List Char) (suf : String) : Option (String × String × String) :=
  match dropPrefixL (suf.data.reverse ++ ['.']) r with
  | none => none
  | some r1 =>
    match splitN 25 r1 with
    | none => none
    | some (tsRev, r2) =>
      if matchShape tsShape tsRev.reverse then
        match r2 with
        | c :: baseRev =>
          if c = '.' ∧ baseRev.all (fun ch => ch ≠ '\n') = true then
            some (⟨baseRev.reverse⟩, ⟨tsRev.reverse⟩, suf)
          else none
        | [] => none
      else none

/-- The anchored regex match proper, applied to the reversed character list
of the (newline-stripped) input. -/
def matchCore (r : List Char) : Option (String × String × String) :=
  sufStrings.findSome? (parseRev r)

/-- Embedding of `parse_increment_filename` (source lines 75-88): returns
`(basename, snapshot_time, objtype)` on a regex match and `none` where the
source raises `ValueError`.  Python's unflagged `$` matches at the end of
the string or just before a single newline at the very end, so the source
pattern also accepts a well-formed name followed by one trailing newline,
yielding the same groups (no pattern element can consume the newline
itself).  This is modelled by stripping at most one trailing newline before
the anchored match. -/
def parse_increment_filename (filename : String) : Option (String × String × String) :=
  match filename.data.reverse with
  | c :: rest => if c = '\n' then matchCore rest else matchCore (c :: rest)
  | [] => matchCore []

/-! ## DeferredFile (source lines 106-177) -/

/-- State of a `DeferredFile` object (source lines 118-148).
`file_exists` is written by `apply` but never read anywhere in the source,
so it is omitted.  `backing_file_is_increment` is left unset by `__init__`
when no backing file is given; no code path reads it before `apply` sets it,
so that case is modelled as `false`. -/
structure DeferredFile where
  name : String
  backing_file : Option String
  backing_file_is_increment : Bool
  file_type : FileType
  diffs : List String
  most_recent_increment : Option String
  most_recent_materialized_file : Option String
  deriving DecidableEq

/-- Embedding of `DeferredFile.__init__` (source lines 118-148). -/
def DeferredFile.mkInit (name : String) (backing_file : Option String)
    (file_type : FileType) : DeferredFile :=
  match backing_file with
  | some bf =>
    { name := name, backing_file := some bf, backing_file_is_increment := false,
      file_type := file_type, diffs := [],
      most_recent_increment := none, most_recent_materialized_file := none }
  | none =>
    { name := name, backing_file := none, backing_file_is_increment := false,
      file_type := .NONEXISTENT, diffs := [],
      most_recent_increment := none, most_recent_materialized_file := none }

/-- Embedding of `DeferredFile._clear_diffs` (source lines 149-152). -/
def DeferredFile.clear_diffs (df : DeferredFile) : DeferredFile :=
  { df with backing_file := none, diffs := [] }

/-- Embedding of `DeferredFile.apply` (source lines 153-177).
`lstatType` models `get_file_type(os.lstat(filename).st_mode)` for the
snapshot branch. -/
def DeferredFile.apply (lstatType : String → FileType) (df : DeferredFile)
    (change_type filename : String) : DeferredFile :=
  if change_type = "missing" then
    { df.clear_diffs with file_type := .NONEXISTENT }
  else if change_type = "dir" then
    { df.clear_diffs with file_type := .DIRECTORY }
  else if change_type = "snapshot" ∨ change_type = "snapshot.gz" then
    { df.clear_diffs with
        file_type := (lstatType filename),
        backing_file := (some filename),
        backing_file_is_increment := true }
  else if change_type = "diff.gz" then
    { df with diffs := df.diffs ++ [filename] }
  else df

/-! ## getattr (source lines 186-214, 268-279) -/

/-- Result of an `os.lstat` call on a path, as consumed by `getattr`:
modification time, permission/type mode bits, and size. -/
structure LStatInfo where
  st_mtime : Int
  st_mode : Nat
  st_size : Int
  deriving DecidableEq

def S_IFDIR : Nat := 0o040000

def S_ISDIRmode (mode : Nat) : Bool := Nat.land mode 0o170000 = S_IFDIR

/-- `mode & ~0222` on Python ints restricted to mode bit patterns: clear the
write bits.  For natural numbers, `m &&& ~mask` equals `m - (m &&& mask)`. -/
def clearWriteBits (mode : Nat) : Nat := mode - Nat.land mode 0o222

/-- Embedding of `SnapshotFsStat.__init__` (source lines 268-279). -/
structure SnapshotFsStat where
  st_mode : Nat
  st_ino : Nat
  st_dev : Nat
  st_nlink : Nat
  st_uid : Nat
  st_gid : Nat
  st_size : Int
  st_atime : Int
  st_mtime : Int
  st_ctime : Int
  deriving DecidableEq

def SnapshotFsStat.mkStat (mtime : Int) (mode : Nat) (size : Int) : SnapshotFsStat :=
  { st_mode := mode, st_ino := 0, st_dev := 0,
    st_nlink := (if S_ISDIRmode mode then 2 else 1),
    st_uid := 0, st_gid := 0, st_size := size,
    st_atime := mtime, st_mtime := mtime, st_ctime := mtime }

/-- Possible outcomes of `DeferredFile.getattr`.  `noneReturned` is the
implicit `None` Python returns when `file_type` matches no branch (the
NONEXISTENT case); `assertionError` is a failing `assert`; `raisedError`
is an exception out of `os.lstat` (backing file absent or `None`). -/
inductive AttrOutcome where
  | stat (s : SnapshotFsStat)
  | noneReturned
  | assertionError
  | raisedError
  deriving DecidableEq

/-- Embedding of `DeferredFile.getattr` (source lines 186-214).  `lstat`
models `os.lstat` on backing-file paths, `now` models `int(time.time())`. -/
def DeferredFile.getattr (lstat : String → Option LStatInfo) (now : Int)
    (df : DeferredFile) : AttrOutcome :=
  if df.file_type = .DIRECTORY then
    .stat (SnapshotFsStat.mkStat now (Nat.lor S_IFDIR 0o555) 4096)
  else if df.file_type = .LINK then
    if df.diffs = [] then
      match df.backing_file with
      | none => .raisedError
      | some p =>
        match lstat p with
        | none => .raisedError
        | some st => .stat (SnapshotFsStat.mkStat st.st_mtime (clearWriteBits st.st_mode) st.st_size)
    else .assertionError
  else if df.file_type = .REGULAR_FILE then
    match df.backing_file with
    | none => .raisedError
    | some p =>
      match lstat p with
      | none => .raisedError
      | some st => .stat (SnapshotFsStat.mkStat st.st_mtime (clearWriteBits st.st_mode) st.st_size)
  else .noneReturned

/-! ## read and the materialization cache (source lines 221-266) -/

/-- `s.endswith(suffix)` on Python strings. -/
def endsWithStr (s suffix : String) : Bool :=
  (dropPrefixL suffix.data.reverse s.data.reverse).isSome

/-- Observable outcome of a successful `DeferredFile.read` call: the updated
object state, the `rdiff-backup` restore invocations performed (source/dest
pairs, in order), the temp files removed with `os.unlink`, and the local file
the data was read from. -/
structure ReadOutcome where
  df : DeferredFile
  restored : List (String × String)
  unlinked : List String
  readFrom : String
  deriving DecidableEq

/-- Embedding of `DeferredFile.read` (source lines 221-266).  `fresh` is the
temp-file name `tempfile.mkstemp()` would produce on this call.  The byte
contents, `size` and `offset` do not influence the cache logic; the file
actually opened is reported in `readFrom`.  `none` models a raised
exception (the `assert` on the file type, or `open(None)`). -/
def DeferredFile.read (fresh : String) (df : DeferredFile) : Option ReadOutcome :=
  if df.file_type = .REGULAR_FILE then
    match df.backing_file with
    | none => none
    | some backing =>
      if df.diffs = [] ∧ (df.backing_file_is_increment = false ∨ endsWithStr backing ".snapshot") then
        some { df := df, restored := [], unlinked := [], readFrom := backing }
      else
        let source_increment_file := (df.diffs.getLast?).getD backing
        if some source_increment_file = df.most_recent_increment then
          match df.most_recent_materialized_file with
          | none => none
          | some f => some { df := df, restored := [], unlinked := [], readFrom := f }
        else
          some { df := { df with
                          most_recent_increment := (some source_increment_file),
                          most_recent_materialized_file := (some fresh) },
                 restored := [(source_increment_file, fresh)],
                 unlinked := (match df.most_recent_materialized_file with
                              | none => []
                              | some old => [old]),
                 readFrom := fresh }
  else none

/-! ## The deferred-directory builder (source lines 337-407)

The filesystem contents relevant to one `build_deferred_dir` call are
captured by an `Env`:
- `mirror_files` is `os.listdir` of the mirror directory for the requested
  relative path (`none` models the caught `OSError`);
- `mirror_type` is `get_file_type(os.lstat(...).st_mode)` for a mirror entry
  (its exceptions, which the source would not catch, are out of scope);
- `increment_files` is `os.listdir` of the mirrored increments directory;
- `inc_is_reg` is `stat.S_ISREG(os.lstat(path).st_mode)` for a joined
  increment path, `none` modelling an `OSError` (caught and skipped);
- `inc_ftype` is `get_file_type(os.lstat(path).st_mode)` for a joined
  increment path, as used by `DeferredFile.apply` on snapshot records. -/
structure Env where
  mirror_dir : String
  mirror_files : Option (List String)
  mirror_type : String → FileType
  increment_dir : String
  increment_files : Option (List String)
  inc_is_reg : String → Option Bool
  inc_ftype : String → FileType

/-- `os.path.join` for the path names appearing here (no absolute second
component arises). -/
def joinPath (d f : String) : String := d ++ "/" ++ f

/-- Lexicographic comparison of character lists; on the ASCII-only timestamp
tokens this is exactly Python's byte-wise string comparison. -/
def lexLe : List Char → List Char → Bool
  | [], _ => true
  | _ :: _, [] => false
  | c :: cs, d :: ds => if c = d then lexLe cs ds else decide (c < d)

/-- Python's `s <= t` on the strings appearing here. -/
def strLe (s t : String) : Bool := lexLe s.data t.data

/-- A parsed increment record as tupled in the source (line 388-389):
`(timestamp, objtype, increment_file)`. -/
def IncRec : Type := String × String × String

instance : DecidableEq IncRec := by unfold IncRec; infer_instance

/-- Comparison used for `diff_info[basename].sort(key = ..., reverse = True)`
(source lines 396-398): descending by timestamp.  Python's sort is stable and
a stable sort is extensionally unique, so `List.insertionSort` with this
relation computes exactly the list Python produces. -/
def recDesc (a b : IncRec) : Prop := strLe b.1 a.1 = true

instance : DecidableRel recDesc := fun a b => by unfold recDesc; infer_instance

/-- Finite-map update for the `file_info` dict. -/
def updateMap (fi : String → Option DeferredFile) (k : String) (v : DeferredFile) :
    String → Option DeferredFile :=
  fun x => if x = k then some v else fi x

/-- Loop 1 of `build_deferred_dir` (source lines 362-371): seed one
`DeferredFile` per mirror entry, skipping `rdiff-backup-data`. -/
def seedMirror (env : Env) : String → Option DeferredFile :=
  (env.mirror_files.getD []).foldl
    (fun fi filename =>
      if filename = "rdiff-backup-data" then fi
      else updateMap fi filename
        (DeferredFile.mkInit filename (some (joinPath env.mirror_dir filename))
          (env.mirror_type filename)))
    (fun _ => none)

/-- Append a record to `diff_info[basename]`, creating the key if absent
(source lines 386-389). -/
def addRecord (di : List (String × List IncRec)) (b : String) (r : IncRec) :
    List (String × List IncRec) :=
  match di with
  | [] => [(b, [r])]
  | (k, rs) :: rest =>
    if k = b then (k, rs ++ [r]) :: rest else (k, rs) :: addRecord rest b r

/-- Loop 2 of `build_deferred_dir` (source lines 375-391): walk the increment
directory listing building `diff_info`.  `os.lstat` failures are caught
(`except OSError: pass`); a `ValueError` out of `parse_increment_filename`
is NOT caught by that handler and aborts the whole call, modelled by the
`Except.error` result. -/
def scanIncrements (env : Env) (requested_snapshot_ts : String)
    (di : List (String × List IncRec)) :
    List String → Except String (List (String × List IncRec))
  | [] => .ok di
  | increment_file :: rest =>
    match env.inc_is_reg (joinPath env.increment_dir increment_file) with
    | none => scanIncrements env requested_snapshot_ts di rest
    | some false => scanIncrements env requested_snapshot_ts di rest
    | some true =>
      match parse_increment_filename increment_file with
      | none => .error ("Invalid increment filename: " ++ increment_file)
      | some (basename, timestamp, objtype) =>
        scanIncrements env requested_snapshot_ts
          (if strLe requested_snapshot_ts timestamp then
            addRecord di basename (timestamp, objtype, increment_file)
           else di) rest

/-- One iteration of the inner loop of loop 3 (source lines 399-405): seed a
NONEXISTENT entry if the basename is absent, then apply the record. -/
def applyStep (env : Env) (basename : String) (fi : String → Option DeferredFile)
    (r : IncRec) : String → Option DeferredFile :=
  let fi2 := if (fi basename).isNone
             then updateMap fi basename (DeferredFile.mkInit basename none .NONEXISTENT)
             else fi
  match fi2 basename with
  | some df =>
    updateMap fi2 basename
      (df.apply env.inc_ftype r.2.1 (joinPath env.increment_dir r.2.2))
  | none => fi2

/-- Loop 3 of `build_deferred_dir` (source lines 393-405): per basename, sort
its records descending by timestamp and apply them in that order. -/
def applyGroups (env : Env) (di : List (String × List IncRec))
    (fi : String → Option DeferredFile) : String → Option DeferredFile :=
  di.foldl
    (fun fi2 e => (List.insertionSort recDesc e.2).foldl (applyStep env e.1) fi2)
    fi

/-- Embedding of `RdiffSnapshotFs.build_deferred_dir` (source lines 337-407).
The `Except.error` case is the uncaught `ValueError` raised on an increment
entry that is a regular file but fails to parse. -/
def RdiffSnapshotFs.build_deferred_dir (env : Env) (requested_snapshot_ts : String) :
    Except String (String → Option DeferredFile) :=
  match scanIncrements env requested_snapshot_ts [] (env.increment_files.getD []) with
  | .error e => .error e
  | .ok diff_info => .ok (applyGroups env diff_info (seedMirror env))

/-! ## The single-slot directory cache (source lines 319-335) -/

/-- The memo fields of `RdiffSnapshotFs` (source lines 293-294 plus the
lazily created `last_deferred_dir`, which `__init__` leaves unset). -/
structure FsCache where
  last_requested_snapshot_ts : Option String
  last_relative_path : Option (List String)
  last_deferred_dir : Option (String → Option DeferredFile)

def FsCache.init : FsCache :=
  { last_requested_snapshot_ts := none, last_relative_path := none,
    last_deferred_dir := none }

/-- Embedding of `RdiffSnapshotFs.get_deferred_dir` (source lines 319-335).
`envOf` maps a relative path to the repository contents visible for it.
Returns the call result, the updated cache state, and whether
`build_deferred_dir` was invoked.  The `Except.error` results model the
uncaught exceptions: a `ValueError` from the builder, or the
`AttributeError` of reading the never-assigned `last_deferred_dir`. -/
def RdiffSnapshotFs.get_deferred_dir (envOf : List String → Env) (st : FsCache)
    (requested_snapshot_ts : String) (relative_path : List String) :
    Except String (String → Option DeferredFile) × FsCache × Bool :=
  if some requested_snapshot_ts ≠ st.last_requested_snapshot_ts ∨
     some relative_path ≠ st.last_relative_path then
    let st1 : FsCache :=
      { st with last_requested_snapshot_ts := (some requested_snapshot_ts),
                last_relative_path := (some relative_path) }
    match RdiffSnapshotFs.build_deferred_dir (envOf relative_path) requested_snapshot_ts with
    | .ok d => (.ok d, { st1 with last_deferred_dir := some d }, true)
    | .error e => (.error e, st1, true)
  else
    match st.last_deferred_dir with
    | some d => (.ok d, st, false)
    | none => (.error "AttributeError: last_deferred_dir", st, false)

/-! ## FUSE call stubs (source lines 514-535) -/

def RdiffSnapshotFs.open (path : String) (flags : Nat) : Int := 0
def RdiffSnapshotFs.release (path : String) (flags : Nat) : Int := 0
def RdiffSnapshotFs.truncate (path : String) (size : Int) : Int := 0
def RdiffSnapshotFs.utime (path : String) (times : Int × Int) : Int := 0
def RdiffSnapshotFs.fsync (path : String) (isfsyncfile : Bool) : Int := 0
def RdiffSnapshotFs.mknod (path : String) (mode : Nat) (dev : Nat) : Int := -1
def RdiffSnapshotFs.unlink (path : String) : Int := -1
def RdiffSnapshotFs.write (path : String) (buf : String) (offset : Int) : Int := -1
def RdiffSnapshotFs.rename (pathfrom : String) (pathto : String) : Int := -1
def RdiffSnapshotFs.mkdir (path : String) (mode : Nat) : Int := -1
def RdiffSnapshotFs.rmdir (path : String) : Int := -1

/-! ## Declarative characterization of the builder

The following definitions restate, following the specification's wording,
what `build_deferred_dir` is claimed to compute: keep the parseable,
regular-file increment records with timestamp at or after the requested
snapshot, group them by basename, sort each group descending by timestamp,
seed from the mirror (or as NONEXISTENT), and fold `apply` over the sorted
group.  The refinement theorem for claim C1 relates them to the imperative
embedding above. -/

/-- The record kept from one increment directory entry, if any: the entry
must stat as a regular file, parse, and carry a timestamp lexicographically
at or after the requested snapshot (boundary inclusive). -/
def keptRecordFor (env : Env) (requested incf : String) : Option (String × IncRec) :=
  match env.inc_is_reg (joinPath env.increment_dir incf) with
  | some true =>
    match parse_increment_filename incf with
    | some (b, ts, ot) => if strLe requested ts then some (b, (ts, ot, incf)) else none
    | none => none
  | _ => none

/-- Kept records for one basename out of an arbitrary listing, in listing
order. -/
def rawGroup (env : Env) (requested : String) (incs : List String) (b : String) :
    List IncRec :=
  incs.filterMap fun incf =>
    (keptRecordFor env requested incf).bind fun p => if p.1 = b then some p.2 else none

/-- All kept records for one basename, in increment-listing order. -/
def groupFor (env : Env) (requested b : String) : List IncRec :=
  rawGroup env requested (env.increment_files.getD []) b

/-- The mirror seed for one basename. -/
def seedFor (env : Env) (b : String) : Option DeferredFile :=
  if b ≠ "rdiff-backup-data" ∧ b ∈ env.mirror_files.getD [] then
    some (DeferredFile.mkInit b (some (joinPath env.mirror_dir b)) (env.mirror_type b))
  else none

/-- Application of one record to a deferred file, with the path joining done
by the builder. -/
def stepApply (env : Env) (df : DeferredFile) (r : IncRec) : DeferredFile :=
  df.apply env.inc_ftype r.2.1 (joinPath env.increment_dir r.2.2)

/-- The declarative per-basename result: fold the records, sorted descending
by timestamp, over the mirror seed (or a fresh NONEXISTENT file when the
basename has records but no mirror entry). -/
def reconstructFile (env : Env) (requested b : String) : Option DeferredFile :=
  match seedFor env b, List.insertionSort recDesc (groupFor env requested b) with
  | some s, g => some (g.foldl (stepApply env) s)
  | none, [] => none
  | none, g => some (g.foldl (stepApply env) (DeferredFile.mkInit b none .NONEXISTENT))

/-! ## Auxiliary definitions for the claims -/

/-- Fold a list of `(change_type, filename)` records over a deferred file. -/
def applyRecList (lstatType : String → FileType) (df : DeferredFile)
    (recs : List (String × String)) : DeferredFile :=
  recs.foldl (fun d r => d.apply lstatType r.1 r.2) df

/-- The five change types that `DeferredFile.apply` reacts to. -/
def chainKinds : List String := ["missing", "dir", "snapshot", "snapshot.gz", "diff.gz"]

/-- Spec-side description of the filenames the source pattern accepts:
`basename ++ "." ++ timestamp ++ "." ++ suffix` — with the timestamp in the
(minus-offset) lexical shape, the suffix one of the five alternatives, and
the basename free of newlines — optionally followed by a single trailing
newline, which Python's unflagged `$` tolerates. -/
def ValidNameNL (filename b ts suf : String) : Prop :=
  (filename.data = b.data ++ '.' :: ts.data ++ '.' :: suf.data ∨
   filename.data = b.data ++ '.' :: ts.data ++ '.' :: suf.data ++ ['\n']) ∧
  matchShape tsShape ts.data = true ∧
  suf ∈ sufStrings ∧
  b.data.all (fun c => c ≠ '\n') = true

/-- The newline-free core form alone (the shape named by the filename
grammar, before the trailing-newline tolerance of `$` is taken into
account). -/
def ValidName (filename b ts suf : String) : Prop :=
  filename.data = b.data ++ '.' :: ts.data ++ '.' :: suf.data ∧
  matchShape tsShape ts.data = true ∧
  suf ∈ sufStrings ∧
  b.data.all (fun c => c ≠ '\n') = true

/-- First-match lookup in `diff_info`, as `Option`. -/
def lookupGroup (di : List (String × List IncRec)) (b : String) : Option (List IncRec) :=
  match di with
  | [] => none
  | (k, rs) :: rest => if k = b then some rs else lookupGroup rest b

/-- The basenames present in `diff_info`, in insertion order. -/
def keysOf (di : List (String × List IncRec)) : List String := di.map Prod.fst

/-- Combine an optional existing group with newly produced records: used to
state the scan invariant. -/
def combineG (o : Option (List IncRec)) (g : List IncRec) : Option (List IncRec) :=
  match o, g with
  | some rs, g => some (rs ++ g)
  | none, [] => none
  | none, g => some g

/-- Concrete scenario for claim C10: the mirror holds a symlink `s`, and a
kept `diff.gz` increment record exists for the same basename. -/
def envC10 : Env :=
  { mirror_dir := "/repo", mirror_files := some ["s"],
    mirror_type := fun _ => .LINK,
    increment_dir := "/repo/rdiff-backup-data/increments",
    increment_files := some ["s.2010-01-01T00:00:00-05:00.diff.gz"],
    inc_is_reg := fun _ => some true,
    inc_ftype := fun _ => .REGULAR_FILE }

/-- Concrete scenario for claim C4: a single increment entry that is a
regular file but does not match the increment filename grammar. -/
def envC4 : Env :=
  { mirror_dir := "/repo", mirror_files := some [],
    mirror_type := fun _ => .REGULAR_FILE,
    increment_dir := "/repo/rdiff-backup-data/increments",
    increment_files := some ["garbage"],
    inc_is_reg := fun _ => some true,
    inc_ftype := fun _ => .REGULAR_FILE }

/-- Concrete environment whose only increment entry is not a regular file. -/
def envC4w : Env :=
  { mirror_dir := "/repo", mirror_files := some ["a"],
    mirror_type := fun _ => .REGULAR_FILE,
    increment_dir := "/repo/rdiff-backup-data/increments",
    increment_files := some ["a.2010-01-01T00:00:00-05:00.snapshot"],
    inc_is_reg := fun _ => some false,
    inc_ftype := fun _ => .REGULAR_FILE }

/-- Small healthy environment: one mirror file and one kept diff record. -/
def envC1 : Env :=
  { mirror_dir := "/repo", mirror_files := some ["a"],
    mirror_type := fun _ => .REGULAR_FILE,
    increment_dir := "/repo/rdiff-backup-data/increments",
    increment_files := some ["a.2010-01-01T00:00:00-05:00.diff.gz"],
    inc_is_reg := fun _ => some true,
    inc_ftype := fun _ => .REGULAR_FILE }

/-- A deferred file in REGULAR_FILE state whose backing is a compressed
snapshot increment, forcing `read` onto the reconstructed path. -/
def dfC7 : DeferredFile :=
  { name := "f", backing_file := some "/inc/f.2010-01-01T00:00:00-05:00.snapshot.gz",
    backing_file_is_increment := true, file_type := .REGULAR_FILE, diffs := [],
    most_recent_increment := none, most_recent_materialized_file := none }

/-- Sign class accepting either UTC-offset sign, used only to state what the
specification claims the timestamp grammar to be. -/
def signP (c : Char) : Bool := c = '-' || c = '+'

/-- The timestamp shape the specification describes
(`YYYY-MM-DDTHH:MM:SS±HH:MM`, either offset sign), unlike the source regex
which accepts only the minus sign. -/
def tsShapePM : List (Char → Bool) :=
  [digitP, digitP, digitP, digitP, chP '-', digitP, digitP, chP '-',
   digitP, digitP, chP 'T', digitP, digitP, chP ':', digitP, digitP,
   chP ':', digitP, digitP, signP, digitP, digitP, chP ':', digitP, digitP]


/-! ## Basic facts about `apply` -/

/-- Applying a record whose change type is none of the five increment kinds
leaves the deferred file unchanged. -/
theorem apply_other (lstatType : String → FileType) (df : DeferredFile)
    (ct fn : String) (h1 : ct ≠ "missing") (h2 : ct ≠ "dir") (h3 : ct ≠ "snapshot")
    (h4 : ct ≠ "snapshot.gz") (h5 : ct ≠ "diff.gz") :
    df.apply lstatType ct fn = df := by
  unfold DeferredFile.apply
  rw [if_neg h1, if_neg h2, if_neg (by simp [h3, h4]), if_neg h5]

/-- C2: `DeferredFile.apply` follows the transition table: a `missing` record
sets the state to NONEXISTENT and clears the backing file and diff chain; a
`dir` record sets the state to DIRECTORY and clears both; a `snapshot` or
`snapshot.gz` record sets the state to the lstat type of the stored increment
object, points the backing file at this increment and clears the diff chain;
a `diff.gz` record appends the increment path to the diff chain and clears
nothing. -/
theorem apply_transition_table (lstatType : String → FileType) (df : DeferredFile)
    (fn : String) :
    (df.apply lstatType "missing" fn =
      { df with file_type := FileType.NONEXISTENT, backing_file := none, diffs := [] }) ∧
    (df.apply lstatType "dir" fn =
      { df with file_type := FileType.DIRECTORY, backing_file := none, diffs := [] }) ∧
    (∀ ct, ct = "snapshot" ∨ ct = "snapshot.gz" →
      df.apply lstatType ct fn =
        { df with file_type := (lstatType fn),
                  backing_file := (some fn),
                  backing_file_is_increment := true,
                  diffs := [] }) ∧
    (df.apply lstatType "diff.gz" fn = { df with diffs := (df.diffs ++ [fn]) }) := by
  refine ⟨rfl, rfl, ?_, rfl⟩
  rintro ct (rfl | rfl) <;> rfl

/-- Closed instantiation of `apply_transition_table`: a snapshot record
applied to a fresh NONEXISTENT deferred file. -/
theorem apply_transition_table_witness :
    (DeferredFile.mkInit "a" none .NONEXISTENT).apply (fun _ => .REGULAR_FILE) "snapshot" "p" =
      { DeferredFile.mkInit "a" none .NONEXISTENT with
          file_type := FileType.REGULAR_FILE,
          backing_file := (some "p"),
          backing_file_is_increment := true,
          diffs := [] } :=
  (apply_transition_table (fun _ => .REGULAR_FILE)
    (DeferredFile.mkInit "a" none .NONEXISTENT) "p").2.2.1 "snapshot" (Or.inl rfl)

/-- C5: querying the attributes of a deferred file in NONEXISTENT state
produces no attribute value; the `None` return is the not-found failure the
transport layer surfaces. -/
theorem getattr_nonexistent (lstat : String → Option LStatInfo) (now : Int)
    (df : DeferredFile) (h : df.file_type = .NONEXISTENT) :
    df.getattr lstat now = .noneReturned := by
  simp [DeferredFile.getattr, h]

/-- Closed instantiation of `getattr_nonexistent`. -/
theorem getattr_nonexistent_witness :
    (DeferredFile.mkInit "g" none .NONEXISTENT).getattr (fun _ => none) 0 = .noneReturned :=
  getattr_nonexistent (fun _ => none) 0 (DeferredFile.mkInit "g" none .NONEXISTENT) rfl

/-- Counterexample to C6 as stated: `truncate` with a nonzero size reports
success (returns 0, not the failure result −1) on every path. -/
theorem truncate_nonzero_reports_success :
    RdiffSnapshotFs.truncate "/2010-01-01T00:00:00-05:00/a.txt" 1 = 0 ∧
    RdiffSnapshotFs.truncate "/2010-01-01T00:00:00-05:00/a.txt" 1 ≠ -1 := by
  exact ⟨rfl, by decide⟩

/-- C6 (amended): the mutating calls `mknod`, `unlink`, `write`, `rename`,
`mkdir` and `rmdir` fail with −1 on every input, but `truncate` (for every
size, including nonzero) and `utime` unconditionally report success (0), as
do `open`, `release` and `fsync`. -/
theorem mutating_call_results (path pathfrom pathto buf : String) (size offset : Int)
    (mode dev flags : Nat) (times : Int × Int) (isfsyncfile : Bool) :
    RdiffSnapshotFs.mknod path mode dev = -1 ∧
    RdiffSnapshotFs.unlink path = -1 ∧
    RdiffSnapshotFs.write path buf offset = -1 ∧
    RdiffSnapshotFs.rename pathfrom pathto = -1 ∧
    RdiffSnapshotFs.mkdir path mode = -1 ∧
    RdiffSnapshotFs.rmdir path = -1 ∧
    RdiffSnapshotFs.truncate path size = 0 ∧
    RdiffSnapshotFs.utime path times = 0 ∧
    RdiffSnapshotFs.open path flags = 0 ∧
    RdiffSnapshotFs.release path flags = 0 ∧
    RdiffSnapshotFs.fsync path isfsyncfile = 0 :=
  ⟨rfl, rfl, rfl, rfl, rfl, rfl, rfl, rfl, rfl, rfl, rfl⟩

/-- Counterexample to C3 as stated: a `diff.gz` record applied to a fresh
NONEXISTENT deferred file leaves a non-empty diff chain although the kind is
not REGULAR_FILE. -/
theorem diff_chain_nonexistent_counterexample :
    ((DeferredFile.mkInit "f" none .NONEXISTENT).apply
        (fun _ => .REGULAR_FILE) "diff.gz" "p").diffs = ["p"] ∧
    ((DeferredFile.mkInit "f" none .NONEXISTENT).apply
        (fun _ => .REGULAR_FILE) "diff.gz" "p").file_type ≠ .REGULAR_FILE := by
  decide

theorem applyRecList_append (lstatType : String → FileType) (df : DeferredFile)
    (l1 l2 : List (String × String)) :
    applyRecList lstatType df (l1 ++ l2) =
      applyRecList lstatType (applyRecList lstatType df l1) l2 := by
  unfold applyRecList
  exact List.foldl_append ..

/-- Applying any of the four superseding record kinds leaves the diff chain
empty. -/
theorem apply_clearing_kinds (lstatType : String → FileType) (df : DeferredFile)
    (ct fn : String)
    (h : ct = "missing" ∨ ct = "dir" ∨ ct = "snapshot" ∨ ct = "snapshot.gz") :
    (df.apply lstatType ct fn).diffs = [] := by
  rcases h with rfl | rfl | rfl | rfl <;> rfl

/-- C3 (amended): over any record sequence applied to a freshly constructed
deferred file, the diff chain is non-empty only when the most recently
applied record among the five increment kinds was a `diff.gz` — regardless of
the resulting file kind, which need not be REGULAR_FILE — and applying a
`missing`, `dir`, `snapshot` or `snapshot.gz` record always leaves the chain
empty. -/
theorem diff_chain_last_applied (lstatType : String → FileType) (name : String)
    (bf : Option String) (ft : FileType) (recs : List (String × String)) :
    ((applyRecList lstatType (DeferredFile.mkInit name bf ft) recs).diffs ≠ [] →
      ((recs.filter (fun r => chainKinds.contains r.1)).getLast?).map Prod.fst =
        some "diff.gz") ∧
    (∀ ct fn, (ct = "missing" ∨ ct = "dir" ∨ ct = "snapshot" ∨ ct = "snapshot.gz") →
      (applyRecList lstatType (DeferredFile.mkInit name bf ft)
        (recs ++ [(ct, fn)])).diffs = []) := by
  constructor
  · induction recs using List.reverseRecOn with
    | nil =>
      intro h
      exfalso
      apply h
      cases bf <;> rfl
    | append_singleton l r ih =>
      intro h
      rw [applyRecList_append,
        show ∀ x : DeferredFile, applyRecList lstatType x [r] = x.apply lstatType r.1 r.2
          from fun _ => rfl] at h
      by_cases h1 : r.1 = "missing"
      · exact absurd (apply_clearing_kinds lstatType _ r.1 r.2 (Or.inl h1)) h
      by_cases h2 : r.1 = "dir"
      · exact absurd (apply_clearing_kinds lstatType _ r.1 r.2 (Or.inr (Or.inl h2))) h
      by_cases h3 : r.1 = "snapshot"
      · exact absurd (apply_clearing_kinds lstatType _ r.1 r.2 (Or.inr (Or.inr (Or.inl h3)))) h
      by_cases h4 : r.1 = "snapshot.gz"
      · exact absurd (apply_clearing_kinds lstatType _ r.1 r.2 (Or.inr (Or.inr (Or.inr h4)))) h
      by_cases h5 : r.1 = "diff.gz"
      · have hm : r.1 ∈ chainKinds := by rw [h5]; decide
        have hone : List.filter (fun q => chainKinds.contains q.1) [r] = [r] := by
          simp [hm]
        rw [List.filter_append, hone, List.getLast?_concat]
        simp [h5]
      · have hne : (applyRecList lstatType (DeferredFile.mkInit name bf ft) l).diffs ≠ [] := by
          rw [apply_other lstatType _ r.1 r.2 h1 h2 h3 h4 h5] at h
          exact h
        have hm : r.1 ∉ chainKinds := by
          simp [chainKinds, h1, h2, h3, h4, h5]
        have hzero : List.filter (fun q => chainKinds.contains q.1) [r] = [] := by
          simp [hm]
        rw [List.filter_append, hzero, List.append_nil]
        exact ih hne
  · intro ct fn h
    rw [applyRecList_append]
    exact apply_clearing_kinds lstatType _ ct fn h

/-- Closed instantiation of `diff_chain_last_applied`: after a lone `diff.gz`
record the last relevant record is indeed the diff, and appending a `missing`
record clears the chain. -/
theorem diff_chain_last_applied_witness :
    ((([(("diff.gz" : String), ("p" : String))].filter
        (fun r => chainKinds.contains r.1)).getLast?).map Prod.fst = some "diff.gz") ∧
    (applyRecList (fun _ => .REGULAR_FILE) (DeferredFile.mkInit "f" none .NONEXISTENT)
      ([("diff.gz", "p")] ++ [("missing", "q")])).diffs = [] :=
  ⟨(diff_chain_last_applied (fun _ => .REGULAR_FILE) "f" none .NONEXISTENT
      [("diff.gz", "p")]).1 (by decide),
   (diff_chain_last_applied (fun _ => .REGULAR_FILE) "f" none .NONEXISTENT
      [("diff.gz", "p")]).2 "missing" "q" (Or.inl rfl)⟩


/-- C7: on the reconstructed read path the source increment is the most
recently applied diff (else the backing snapshot); a read whose source
matches the cached source reuses the existing local file with no restore
invocation; otherwise the previous temp file (if any) is deleted, exactly one
restore runs into a fresh temp file, and the new source/file pair is
recorded — so the second of two consecutive reads of the same source
performs no restore and leaves state and result unchanged. -/
theorem read_materialization_cache (df : DeferredFile) (backing fresh fresh2 : String)
    (hreg : df.file_type = .REGULAR_FILE)
    (hback : df.backing_file = some backing)
    (hrecon : ¬ (df.diffs = [] ∧
      (df.backing_file_is_increment = false ∨ endsWithStr backing ".snapshot" = true))) :
    (∀ f, df.most_recent_increment = some ((df.diffs.getLast?).getD backing) →
        df.most_recent_materialized_file = some f →
      df.read fresh = some { df := df, restored := [], unlinked := [], readFrom := f }) ∧
    (df.most_recent_increment ≠ some ((df.diffs.getLast?).getD backing) →
      df.read fresh = some
        { df := { df with
                    most_recent_increment := (some ((df.diffs.getLast?).getD backing)),
                    most_recent_materialized_file := (some fresh) },
          restored := [((df.diffs.getLast?).getD backing, fresh)],
          unlinked := (match df.most_recent_materialized_file with
                       | none => []
                       | some old => [old]),
          readFrom := fresh }) ∧
    (∀ o1 o2, df.read fresh = some o1 → o1.df.read fresh2 = some o2 →
      o2.restored = [] ∧ o2.df = o1.df ∧ o2.readFrom = o1.readFrom) := by
  obtain ⟨nm, bfo, inc, ftv, dfs, mri, mrmf⟩ := df
  dsimp only at hreg hback hrecon ⊢
  subst hreg
  subst hback
  refine ⟨?_, ?_, ?_⟩
  · intro f hsrc hmat
    subst hsrc
    subst hmat
    simp [DeferredFile.read, hrecon]
  · intro hsrc
    simp [DeferredFile.read, hrecon, Ne.symm hsrc]
  · intro o1 o2 h1 h2
    by_cases hsrc : some ((dfs.getLast?).getD backing) = mri
    · subst hsrc
      cases hmat : mrmf with
      | none =>
        rw [hmat] at h1
        simp [DeferredFile.read, hrecon] at h1
      | some f =>
        subst hmat
        simp [DeferredFile.read, hrecon] at h1
        subst h1
        simp [DeferredFile.read, hrecon] at h2
        subst h2
        exact ⟨rfl, rfl, rfl⟩
    · simp [DeferredFile.read, hrecon, hsrc] at h1
      subst h1
      simp [DeferredFile.read, hrecon] at h2
      subst h2
      exact ⟨rfl, rfl, rfl⟩

/-- Closed instantiation of `read_materialization_cache`: a first (cold) read
of a compressed-snapshot-backed file performs exactly one restore into the
fresh temp file and records the pair. -/
theorem read_materialization_cache_witness :
    dfC7.read "/tmp/t1" = some
      { df := { dfC7 with
                  most_recent_increment := (some "/inc/f.2010-01-01T00:00:00-05:00.snapshot.gz"),
                  most_recent_materialized_file := (some "/tmp/t1") },
        restored := [("/inc/f.2010-01-01T00:00:00-05:00.snapshot.gz", "/tmp/t1")],
        unlinked := [],
        readFrom := "/tmp/t1" } :=
  (read_materialization_cache dfC7 "/inc/f.2010-01-01T00:00:00-05:00.snapshot.gz"
    "/tmp/t1" "/tmp/t2" rfl rfl (by decide)).2.1 (by decide)

/-- C9: the single-slot directory cache is idempotent: when a call to
`get_deferred_dir (T, P)` succeeds with directory `d` and cache state `st1`,
an immediately following call with the same key and no intervening change
returns the very same directory `d` (hence identical basename-to-state
mappings), does not rebuild, and leaves the cache state unchanged. -/
theorem get_deferred_dir_idempotent (envOf : List String → Env) (st : FsCache)
    (T : String) (P : List String) (d : String → Option DeferredFile)
    (st1 : FsCache) (r1 : Bool)
    (h : RdiffSnapshotFs.get_deferred_dir envOf st T P = (.ok d, st1, r1)) :
    RdiffSnapshotFs.get_deferred_dir envOf st1 T P = (.ok d, st1, false) := by
  unfold RdiffSnapshotFs.get_deferred_dir at h ⊢
  by_cases hc : some T ≠ st.last_requested_snapshot_ts ∨ some P ≠ st.last_relative_path
  · rw [if_pos hc] at h
    cases hb : RdiffSnapshotFs.build_deferred_dir (envOf P) T with
    | error e =>
      rw [hb] at h
      simp at h
    | ok dd =>
      rw [hb] at h
      rw [Prod.mk.injEq, Prod.mk.injEq] at h
      obtain ⟨hA, hB, hC⟩ := h
      simp only [Except.ok.injEq] at hA
      subst hA
      subst hB
      rw [if_neg (by simp)]
  · rw [if_neg hc] at h
    cases hm : st.last_deferred_dir with
    | none =>
      rw [hm] at h
      simp at h
    | some dd =>
      rw [hm] at h
      rw [Prod.mk.injEq, Prod.mk.injEq] at h
      obtain ⟨hA, hB, hC⟩ := h
      simp only [Except.ok.injEq] at hA
      subst hA
      subst hB
      rw [if_neg hc, hm]

/-- Closed instantiation of `get_deferred_dir_idempotent`: after one
successful call on the initial cache state, repeating the call returns the
same directory without rebuilding. -/
theorem get_deferred_dir_idempotent_witness :
    RdiffSnapshotFs.get_deferred_dir (fun _ => envC1)
      (RdiffSnapshotFs.get_deferred_dir (fun _ => envC1) FsCache.init
        "2000-01-01T00:00:00-05:00" []).2.1
      "2000-01-01T00:00:00-05:00" [] =
    ((RdiffSnapshotFs.get_deferred_dir (fun _ => envC1) FsCache.init
        "2000-01-01T00:00:00-05:00" []).1,
     (RdiffSnapshotFs.get_deferred_dir (fun _ => envC1) FsCache.init
        "2000-01-01T00:00:00-05:00" []).2.1,
     false) :=
  get_deferred_dir_idempotent (fun _ => envC1) FsCache.init
    "2000-01-01T00:00:00-05:00" []
    (match (RdiffSnapshotFs.get_deferred_dir (fun _ => envC1) FsCache.init
        "2000-01-01T00:00:00-05:00" []).1 with
     | .ok d => d
     | .error _ => fun _ => none)
    (RdiffSnapshotFs.get_deferred_dir (fun _ => envC1) FsCache.init
        "2000-01-01T00:00:00-05:00" []).2.1
    (RdiffSnapshotFs.get_deferred_dir (fun _ => envC1) FsCache.init
        "2000-01-01T00:00:00-05:00" []).2.2
    rfl

/-! ## Lemmas about the increment scan -/

theorem scanIncrements_cons (env : Env) (T : String) (di : List (String × List IncRec))
    (a : String) (l : List String) :
    scanIncrements env T di (a :: l) =
      (match env.inc_is_reg (joinPath env.increment_dir a) with
       | none => scanIncrements env T di l
       | some false => scanIncrements env T di l
       | some true =>
         match parse_increment_filename a with
         | none => .error ("Invalid increment filename: " ++ a)
         | some (b, ts, ot) =>
           scanIncrements env T
             (if strLe T ts then addRecord di b (ts, ot, a) else di) l) := rfl

theorem scanIncrements_append (env : Env) (T : String) (l1 : List String) :
    ∀ (di : List (String × List IncRec)) (l2 : List String),
      scanIncrements env T di (l1 ++ l2) =
        (match scanIncrements env T di l1 with
         | .ok di1 => scanIncrements env T di1 l2
         | .error e => .error e) := by
  induction l1 with
  | nil => intro di l2; rfl
  | cons a l1 ih =>
    intro di l2
    rw [List.cons_append, scanIncrements_cons, scanIncrements_cons]
    cases hA : env.inc_is_reg (joinPath env.increment_dir a) with
    | none => exact ih di l2
    | some b =>
      cases b
      · exact ih di l2
      · cases hP : parse_increment_filename a with
        | none => rfl
        | some t =>
          obtain ⟨b1, ts1, ot1⟩ := t
          exact ih _ l2

/-- Entries that are not regular files (or whose lstat fails) are skipped by
the scan, wherever they occur in the listing. -/
theorem scanIncrements_skip (env : Env) (T e : String)
    (hskip : env.inc_is_reg (joinPath env.increment_dir e) = none ∨
             env.inc_is_reg (joinPath env.increment_dir e) = some false)
    (pre : List String) :
    ∀ (post : List String) (di : List (String × List IncRec)),
      scanIncrements env T di (pre ++ e :: post) = scanIncrements env T di (pre ++ post) := by
  induction pre with
  | nil =>
    intro post di
    rw [List.nil_append, List.nil_append, scanIncrements_cons]
    rcases hskip with h | h <;> rw [h]
  | cons a pre ih =>
    intro post di
    rw [List.cons_append, List.cons_append, scanIncrements_cons, scanIncrements_cons]
    cases hA : env.inc_is_reg (joinPath env.increment_dir a) with
    | none => exact ih post di
    | some b =>
      cases b
      · exact ih post di
      · cases hP : parse_increment_filename a with
        | none => rfl
        | some t =>
          obtain ⟨b1, ts1, ot1⟩ := t
          exact ih post _

theorem scanIncrements_congr (env env2 : Env) (T : String)
    (h1 : env.inc_is_reg = env2.inc_is_reg) (h2 : env.increment_dir = env2.increment_dir)
    (l : List String) :
    ∀ di, scanIncrements env T di l = scanIncrements env2 T di l := by
  induction l with
  | nil => intro di; rfl
  | cons a l ih =>
    intro di
    rw [scanIncrements_cons, scanIncrements_cons, h1, h2]
    cases env2.inc_is_reg (joinPath env2.increment_dir a) with
    | none => exact ih di
    | some b =>
      cases b
      · exact ih di
      · cases parse_increment_filename a with
        | none => rfl
        | some t =>
          obtain ⟨b1, ts1, ot1⟩ := t
          exact ih _

theorem applyStep_congr (env env2 : Env)
    (h1 : env.inc_ftype = env2.inc_ftype) (h2 : env.increment_dir = env2.increment_dir) :
    applyStep env = applyStep env2 := by
  funext b fi r
  unfold applyStep
  rw [h1, h2]

theorem applyGroups_congr (env env2 : Env)
    (h1 : env.inc_ftype = env2.inc_ftype) (h2 : env.increment_dir = env2.increment_dir)
    (di : List (String × List IncRec)) (fi : String → Option DeferredFile) :
    applyGroups env di fi = applyGroups env2 di fi := by
  unfold applyGroups
  rw [applyStep_congr env env2 h1 h2]

theorem seedMirror_congr (env env2 : Env)
    (h1 : env.mirror_files = env2.mirror_files) (h2 : env.mirror_dir = env2.mirror_dir)
    (h3 : env.mirror_type = env2.mirror_type) :
    seedMirror env = seedMirror env2 := by
  unfold seedMirror
  rw [h1, h2, h3]

/-- Counterexample to C4 as stated: with a single increment entry that is a
regular file but fails to parse, `build_deferred_dir` does not return a
directory mapping at all — the parse failure escapes the `except OSError`
handler and aborts the call. -/
theorem build_unparseable_fatal_counterexample :
    (RdiffSnapshotFs.build_deferred_dir envC4 "2000-01-01T00:00:00-05:00").isOk = false := by
  decide

/-- C4 (amended): an increment directory entry that is not a regular file, or
whose lstat fails, is skipped silently and non-fatally — deleting it from the
listing does not change the result — but an entry that is a regular file and
fails to parse against the increment grammar makes `build_deferred_dir`
propagate a fatal parse error instead of returning a mapping. -/
theorem build_skip_nonregular_fatal_unparseable (env : Env) (T e : String)
    (pre post : List String) (di : List (String × List IncRec)) :
    ((env.increment_files = some (pre ++ e :: post)) →
      (env.inc_is_reg (joinPath env.increment_dir e) = none ∨
       env.inc_is_reg (joinPath env.increment_dir e) = some false) →
      RdiffSnapshotFs.build_deferred_dir env T =
        RdiffSnapshotFs.build_deferred_dir
          { env with increment_files := some (pre ++ post) } T) ∧
    ((env.increment_files = some (pre ++ e :: post)) →
      env.inc_is_reg (joinPath env.increment_dir e) = some true →
      parse_increment_filename e = none →
      scanIncrements env T [] pre = .ok di →
      RdiffSnapshotFs.build_deferred_dir env T =
        .error ("Invalid increment filename: " ++ e)) := by
  constructor
  · intro hf hskip
    unfold RdiffSnapshotFs.build_deferred_dir
    rw [hf]
    have hdrop : ({ env with increment_files := some (pre ++ post) } : Env).increment_files.getD []
        = pre ++ post := rfl
    rw [hdrop]
    rw [show (some (pre ++ e :: post)).getD ([] : List String) = pre ++ e :: post from rfl]
    rw [scanIncrements_skip env T e hskip pre post []]
    rw [scanIncrements_congr env { env with increment_files := some (pre ++ post) } T rfl rfl
      (pre ++ post) []]
    cases scanIncrements { env with increment_files := some (pre ++ post) } T [] (pre ++ post) with
    | error err => rfl
    | ok di1 =>
      dsimp only
      rw [applyGroups_congr env { env with increment_files := some (pre ++ post) } rfl rfl di1,
        seedMirror_congr env { env with increment_files := some (pre ++ post) } rfl rfl rfl]
  · intro hf hreg hparse hscan
    unfold RdiffSnapshotFs.build_deferred_dir
    rw [hf]
    rw [show (some (pre ++ e :: post)).getD ([] : List String) = pre ++ e :: post from rfl]
    rw [scanIncrements_append env T pre [] (e :: post), hscan]
    dsimp only
    rw [scanIncrements_cons, hreg, hparse]

/-- Closed instantiation of `build_skip_nonregular_fatal_unparseable`:
dropping a non-regular entry does not change the build result, and a regular
unparseable entry aborts the build with the parse error. -/
theorem build_skip_nonregular_fatal_unparseable_witness :
    (RdiffSnapshotFs.build_deferred_dir envC4w "2000-01-01T00:00:00-05:00" =
      RdiffSnapshotFs.build_deferred_dir
        { envC4w with increment_files := some ([] ++ []) } "2000-01-01T00:00:00-05:00") ∧
    (RdiffSnapshotFs.build_deferred_dir envC4 "2000-01-01T00:00:00-05:00" =
      .error ("Invalid increment filename: " ++ "garbage")) :=
  ⟨(build_skip_nonregular_fatal_unparseable envC4w "2000-01-01T00:00:00-05:00"
      "a.2010-01-01T00:00:00-05:00.snapshot" [] [] []).1 rfl (Or.inr rfl),
   (build_skip_nonregular_fatal_unparseable envC4 "2000-01-01T00:00:00-05:00"
      "garbage" [] [] []).2 rfl rfl (by decide) rfl⟩

/-- C10 evaluated at the failing input: a basename seeded from the mirror as
a symlink to which a kept `diff.gz` record is applied is reachable through
`build_deferred_dir`, is left in LINK state with a non-empty diff chain, and
`getattr` on it hits the failing assertion (`assert len(self.diffs) == 0`)
instead of returning attributes. -/
theorem symlink_with_diff_hits_assertion :
    ((RdiffSnapshotFs.build_deferred_dir envC10 "2000-01-01T00:00:00-05:00").toOption.bind
      (fun d => d "s")).map
        (fun df => (df.file_type, df.diffs, df.getattr (fun _ => none) 0)) =
    some (.LINK,
      ["/repo/rdiff-backup-data/increments/s.2010-01-01T00:00:00-05:00.diff.gz"],
      .assertionError) := by
  decide

/-! ## Correctness of the filename parser -/

theorem dropPrefixL_sound (p : List Char) :
    ∀ s r, dropPrefixL p s = some r → s = p ++ r := by
  induction p with
  | nil =>
    intro s r h
    simp [dropPrefixL] at h
    simp [h]
  | cons c cs ih =>
    intro s r h
    cases s with
    | nil => simp [dropPrefixL] at h
    | cons d ds =>
      by_cases hc : c = d
      · subst hc
        simp [dropPrefixL] at h
        rw [List.cons_append]
        exact congrArg _ (ih ds r h)
      · rw [show dropPrefixL (c :: cs) (d :: ds) = if c = d then dropPrefixL cs ds else none
          from rfl, if_neg hc] at h
        cases h

theorem dropPrefixL_append (p r : List Char) : dropPrefixL p (p ++ r) = some r := by
  induction p with
  | nil => rfl
  | cons c cs ih => simp [dropPrefixL, ih]

theorem splitN_sound (n : Nat) :
    ∀ s a b, splitN n s = some (a, b) → s = a ++ b ∧ a.length = n := by
  induction n with
  | zero =>
    intro s a b h
    simp [splitN] at h
    obtain ⟨ha, hb⟩ := h
    subst ha
    subst hb
    exact ⟨rfl, rfl⟩
  | succ n ih =>
    intro s a b h
    cases s with
    | nil => simp [splitN] at h
    | cons c cs =>
      simp only [splitN, Option.map_eq_some'] at h
      obtain ⟨⟨a1, b1⟩, hsp, heq⟩ := h
      obtain ⟨hcs, hlen⟩ := ih cs a1 b1 hsp
      rw [Prod.mk.injEq] at heq
      obtain ⟨h1, h2⟩ := heq
      subst h2
      rw [← h1]
      constructor
      · rw [List.cons_append, hcs]
      · simp [hlen]

theorem splitN_append (a b : List Char) : splitN a.length (a ++ b) = some (a, b) := by
  induction a with
  | nil => rfl
  | cons c cs ih => simp [splitN, ih]

theorem matchShape_length (shape : List (Char → Bool)) :
    ∀ s, matchShape shape s = true → s.length = shape.length := by
  induction shape with
  | nil => intro s h; cases s with | nil => rfl | cons c cs => simp [matchShape] at h
  | cons p ps ih =>
    intro s h
    cases s with
    | nil => simp [matchShape] at h
    | cons c cs =>
      simp only [matchShape, Bool.and_eq_true] at h
      simp [ih cs h.2]


theorem parseRev_sound (r : List Char) (suf b ts suf0 : String)
    (h : parseRev r suf = some (b, ts, suf0)) :
    suf0 = suf ∧
    r.reverse = b.data ++ '.' :: ts.data ++ '.' :: suf.data ∧
    matchShape tsShape ts.data = true ∧
    b.data.all (fun c => c ≠ '\n') = true := by
  unfold parseRev at h
  cases hdp : dropPrefixL (suf.data.reverse ++ ['.']) r with
  | none => rw [hdp] at h; simp at h
  | some r1 =>
    rw [hdp] at h
    dsimp only at h
    cases hsp : splitN 25 r1 with
    | none => rw [hsp] at h; simp at h
    | some p =>
      obtain ⟨tsRev, r2⟩ := p
      rw [hsp] at h
      dsimp only at h
      by_cases hms : matchShape tsShape tsRev.reverse = true
      · rw [if_pos hms] at h
        cases r2 with
        | nil => simp at h
        | cons c baseRev =>
          dsimp only at h
          by_cases hcnd : c = '.' ∧ baseRev.all (fun ch => ch ≠ '\n') = true
          · rw [if_pos hcnd] at h
            obtain ⟨hc, hnl⟩ := hcnd
            subst hc
            rw [Option.some.injEq, Prod.mk.injEq, Prod.mk.injEq] at h
            obtain ⟨hb, hts, hsuf⟩ := h
            subst hb
            subst hts
            refine ⟨hsuf.symm, ?_, by simpa using hms, by simpa using hnl⟩
            have h1 : r = (suf.data.reverse ++ ['.']) ++ r1 :=
              dropPrefixL_sound _ _ _ hdp
            have h2 : r1 = tsRev ++ '.' :: baseRev := (splitN_sound 25 r1 tsRev _ hsp).1
            rw [h1, h2]
            simp [List.reverse_append]
          · rw [if_neg hcnd] at h
            simp at h
      · rw [if_neg hms] at h
        simp at h

theorem parseRev_complete (b ts suf : String)
    (hts : matchShape tsShape ts.data = true)
    (hb : b.data.all (fun c => c ≠ '\n') = true) :
    parseRev ((b.data ++ '.' :: ts.data ++ '.' :: suf.data).reverse) suf = some (b, ts, suf) := by
  have hlen : ts.data.reverse.length = 25 := by
    rw [List.length_reverse]
    exact (matchShape_length tsShape ts.data hts).trans (by rfl)
  have hrev : (b.data ++ '.' :: ts.data ++ '.' :: suf.data).reverse =
      (suf.data.reverse ++ ['.']) ++ (ts.data.reverse ++ '.' :: b.data.reverse) := by
    simp [List.reverse_append]
  rw [hrev]
  unfold parseRev
  rw [dropPrefixL_append]
  try dsimp only
  rw [← hlen, splitN_append]
  try dsimp only
  rw [List.reverse_reverse, if_pos hts]
  try dsimp only
  rw [if_pos (⟨rfl, by simpa using hb⟩ :
    ('.' : Char) = '.' ∧ (b.data.reverse.all fun ch => ch ≠ '\n') = true)]
  simp only [List.reverse_reverse, Option.some.injEq, Prod.mk.injEq]

theorem rev_decomp (bl tl sl : List Char) :
    (bl ++ '.' :: tl ++ '.' :: sl).reverse =
      sl.reverse ++ '.' :: (tl.reverse ++ '.' :: bl.reverse) := by
  simp [List.reverse_append, List.append_assoc]

theorem matchCore_characterization (r : List Char) (b ts suf : String) :
    matchCore r = some (b, ts, suf) ↔
      (r.reverse = b.data ++ '.' :: ts.data ++ '.' :: suf.data ∧
       matchShape tsShape ts.data = true ∧
       suf ∈ sufStrings ∧
       b.data.all (fun c => c ≠ '\n') = true) := by
  constructor
  · intro h
    unfold matchCore sufStrings at h
    rw [List.findSome?_cons] at h
    cases h1 : parseRev r "diff.gz" with
    | some x =>
      rw [h1] at h
      dsimp only at h
      rw [Option.some.injEq] at h
      subst h
      obtain ⟨hs0, hfd, hms, hbl⟩ := parseRev_sound r "diff.gz" b ts suf h1
      exact ⟨by rw [hs0]; exact hfd, hms, by rw [hs0]; decide, hbl⟩
    | none =>
      rw [h1] at h
      dsimp only at h
      rw [List.findSome?_cons] at h
      cases h2 : parseRev r "snapshot.gz" with
      | some x =>
        rw [h2] at h
        dsimp only at h
        rw [Option.some.injEq] at h
        subst h
        obtain ⟨hs0, hfd, hms, hbl⟩ := parseRev_sound r "snapshot.gz" b ts suf h2
        exact ⟨by rw [hs0]; exact hfd, hms, by rw [hs0]; decide, hbl⟩
      | none =>
        rw [h2] at h
        dsimp only at h
        rw [List.findSome?_cons] at h
        cases h3 : parseRev r "snapshot" with
        | some x =>
          rw [h3] at h
          dsimp only at h
          rw [Option.some.injEq] at h
          subst h
          obtain ⟨hs0, hfd, hms, hbl⟩ := parseRev_sound r "snapshot" b ts suf h3
          exact ⟨by rw [hs0]; exact hfd, hms, by rw [hs0]; decide, hbl⟩
        | none =>
          rw [h3] at h
          dsimp only at h
          rw [List.findSome?_cons] at h
          cases h4 : parseRev r "dir" with
          | some x =>
            rw [h4] at h
            dsimp only at h
            rw [Option.some.injEq] at h
            subst h
            obtain ⟨hs0, hfd, hms, hbl⟩ := parseRev_sound r "dir" b ts suf h4
            exact ⟨by rw [hs0]; exact hfd, hms, by rw [hs0]; decide, hbl⟩
          | none =>
            rw [h4] at h
            dsimp only at h
            rw [List.findSome?_cons] at h
            cases h5 : parseRev r "missing" with
            | some x =>
              rw [h5] at h
              dsimp only at h
              rw [Option.some.injEq] at h
              subst h
              obtain ⟨hs0, hfd, hms, hbl⟩ := parseRev_sound r "missing" b ts suf h5
              exact ⟨by rw [hs0]; exact hfd, hms, by rw [hs0]; decide, hbl⟩
            | none =>
              rw [h5] at h
              dsimp only at h
              simp at h
  · rintro ⟨hf, hts, hmem, hb⟩
    have hmem2 : suf = "diff.gz" ∨ suf = "snapshot.gz" ∨ suf = "snapshot" ∨
        suf = "dir" ∨ suf = "missing" := by
      simpa [sufStrings] using hmem
    have hcomp := parseRev_complete b ts suf hts hb
    rw [rev_decomp] at hcomp
    have hreq : r = (b.data ++ '.' :: ts.data ++ '.' :: suf.data).reverse := by
      rw [← hf, List.reverse_reverse]
    subst hreq
    unfold matchCore sufStrings
    rw [rev_decomp]
    rcases hmem2 with rfl | rfl | rfl | rfl | rfl
    · rw [List.findSome?_cons, hcomp]
    · rw [List.findSome?_cons,
        show parseRev ((("snapshot.gz" : String).data.reverse) ++
          '.' :: (ts.data.reverse ++ '.' :: b.data.reverse)) "diff.gz" = none from rfl]
      dsimp only
      rw [List.findSome?_cons, hcomp]
    · rw [List.findSome?_cons,
        show parseRev ((("snapshot" : String).data.reverse) ++
          '.' :: (ts.data.reverse ++ '.' :: b.data.reverse)) "diff.gz" = none from rfl]
      dsimp only
      rw [List.findSome?_cons,
        show parseRev ((("snapshot" : String).data.reverse) ++
          '.' :: (ts.data.reverse ++ '.' :: b.data.reverse)) "snapshot.gz" = none from rfl]
      dsimp only
      rw [List.findSome?_cons, hcomp]
    · rw [List.findSome?_cons,
        show parseRev ((("dir" : String).data.reverse) ++
          '.' :: (ts.data.reverse ++ '.' :: b.data.reverse)) "diff.gz" = none from rfl]
      dsimp only
      rw [List.findSome?_cons,
        show parseRev ((("dir" : String).data.reverse) ++
          '.' :: (ts.data.reverse ++ '.' :: b.data.reverse)) "snapshot.gz" = none from rfl]
      dsimp only
      rw [List.findSome?_cons,
        show parseRev ((("dir" : String).data.reverse) ++
          '.' :: (ts.data.reverse ++ '.' :: b.data.reverse)) "snapshot" = none from rfl]
      dsimp only
      rw [List.findSome?_cons, hcomp]
    · rw [List.findSome?_cons,
        show parseRev ((("missing" : String).data.reverse) ++
          '.' :: (ts.data.reverse ++ '.' :: b.data.reverse)) "diff.gz" = none from rfl]
      dsimp only
      rw [List.findSome?_cons,
        show parseRev ((("missing" : String).data.reverse) ++
          '.' :: (ts.data.reverse ++ '.' :: b.data.reverse)) "snapshot.gz" = none from rfl]
      dsimp only
      rw [List.findSome?_cons,
        show parseRev ((("missing" : String).data.reverse) ++
          '.' :: (ts.data.reverse ++ '.' :: b.data.reverse)) "snapshot" = none from rfl]
      dsimp only
      rw [List.findSome?_cons,
        show parseRev ((("missing" : String).data.reverse) ++
          '.' :: (ts.data.reverse ++ '.' :: b.data.reverse)) "dir" = none from rfl]
      dsimp only
      rw [List.findSome?_cons, hcomp]

/-- The last character of a well-formed core is the last character of its
suffix, never a newline. -/
theorem core_getLast_ne (b ts suf : String) (hmem : suf ∈ sufStrings) :
    (b.data ++ '.' :: ts.data ++ '.' :: suf.data).getLast? ≠ some '\n' := by
  have hassoc : b.data ++ '.' :: ts.data ++ '.' :: suf.data
      = (b.data ++ '.' :: ts.data) ++ ('.' :: suf.data) := by simp
  rw [hassoc, List.getLast?_append_cons]
  have hmem2 : suf = "diff.gz" ∨ suf = "snapshot.gz" ∨ suf = "snapshot" ∨
      suf = "dir" ∨ suf = "missing" := by
    simpa [sufStrings] using hmem
  rcases hmem2 with rfl | rfl | rfl | rfl | rfl <;> decide

/-- C8 (amended): `parse_increment_filename` succeeds, returning the
basename, timestamp and kind, exactly for filenames of the form
`<basename>.<timestamp>.<suffix>` — where the suffix is one of `diff.gz`,
`snapshot.gz`, `snapshot`, `dir`, `missing`, the timestamp has the fixed
shape `YYYY-MM-DDTHH:MM:SS-HH:MM` with only a minus-sign UTC offset
accepted, and the basename contains no newline — optionally followed by a
single trailing newline (which the source pattern's unflagged `$` accepts,
with the same groups); every other filename is rejected with a parse
error. -/
theorem parse_increment_filename_characterization (filename b ts suf : String) :
    parse_increment_filename filename = some (b, ts, suf) ↔
      ValidNameNL filename b ts suf := by
  unfold ValidNameNL
  cases hr : filename.data.reverse with
  | nil =>
    have hfd : filename.data = [] := List.reverse_eq_nil_iff.mp hr
    have hstep : parse_increment_filename filename = matchCore [] := by
      unfold parse_increment_filename
      rw [hr]
    rw [hstep, show matchCore [] = none from rfl]
    constructor
    · intro h
      cases h
    · rintro ⟨hd | hd, _, _, _⟩
      · rw [hfd] at hd
        exact absurd hd.symm (by simp)
      · rw [hfd] at hd
        exact absurd hd.symm (by simp)
  | cons c rest =>
    have hfd : filename.data = (c :: rest).reverse := by
      rw [← hr, List.reverse_reverse]
    by_cases hc : c = '\n'
    · subst hc
      have hstep : parse_increment_filename filename = matchCore rest := by
        unfold parse_increment_filename
        rw [hr]
        dsimp only
        rw [if_pos rfl]
      rw [hstep, matchCore_characterization rest b ts suf]
      constructor
      · rintro ⟨hcore, hsh, hmem, hbl⟩
        refine ⟨Or.inr ?_, hsh, hmem, hbl⟩
        rw [hfd, List.reverse_cons, hcore]
      · rintro ⟨hd | hd, hsh, hmem, hbl⟩
        · exfalso
          rw [hfd, List.reverse_cons] at hd
          have hlast := congrArg List.getLast? hd
          rw [List.getLast?_concat] at hlast
          exact core_getLast_ne b ts suf hmem hlast.symm
        · refine ⟨?_, hsh, hmem, hbl⟩
          rw [hfd, List.reverse_cons] at hd
          have := congrArg List.dropLast hd
          rw [List.dropLast_concat, List.dropLast_concat] at this
          exact this
    · have hstep : parse_increment_filename filename = matchCore (c :: rest) := by
        unfold parse_increment_filename
        rw [hr]
        dsimp only
        rw [if_neg hc]
      rw [hstep, matchCore_characterization (c :: rest) b ts suf]
      constructor
      · rintro ⟨hcore, hsh, hmem, hbl⟩
        refine ⟨Or.inl ?_, hsh, hmem, hbl⟩
        rw [hfd, hcore]
      · rintro ⟨hd | hd, hsh, hmem, hbl⟩
        · refine ⟨?_, hsh, hmem, hbl⟩
          rw [hfd] at hd
          exact hd
        · exfalso
          apply hc
          have hlast : filename.data.getLast? = some c := by
            rw [← List.head?_reverse, hr]
            rfl
          rw [hd, List.getLast?_concat] at hlast
          injection hlast with hlast
          exact hlast.symm

/-- Counterexample to C8 as stated: a filename whose timestamp segment uses a
plus-sign UTC offset is of the claimed `<basename>.<SnapshotId>.<suffix>`
shape with a `±HH:MM` offset and a listed suffix, yet the parser rejects it —
the source regex hard-codes the minus sign. -/
theorem parse_plus_offset_counterexample :
    ("a.2009-09-17T00:01:23+07:00.diff.gz" : String).data =
      ("a" : String).data ++ '.' :: ("2009-09-17T00:01:23+07:00" : String).data ++
        '.' :: ("diff.gz" : String).data ∧
    matchShape tsShapePM ("2009-09-17T00:01:23+07:00" : String).data = true ∧
    "diff.gz" ∈ sufStrings ∧
    ("a" : String).data.all (fun c => c ≠ '\n') = true ∧
    parse_increment_filename "a.2009-09-17T00:01:23+07:00.diff.gz" = none := by
  decide

/-! ## Refinement of the builder to its declarative description -/

theorem seedMirror_fold (env : Env) (l : List String) :
    ∀ (fi : String → Option DeferredFile) (b : String),
      (l.foldl
        (fun fi2 filename =>
          if filename = "rdiff-backup-data" then fi2
          else updateMap fi2 filename
            (DeferredFile.mkInit filename (some (joinPath env.mirror_dir filename))
              (env.mirror_type filename))) fi) b =
      (if b ≠ "rdiff-backup-data" ∧ b ∈ l then
        some (DeferredFile.mkInit b (some (joinPath env.mirror_dir b)) (env.mirror_type b))
       else fi b) := by
  induction l with
  | nil => intro fi b; simp
  | cons f l ih =>
    intro fi b
    rw [List.foldl_cons]
    by_cases hf : f = "rdiff-backup-data"
    · rw [if_pos hf, ih]
      by_cases hb : b ≠ "rdiff-backup-data" ∧ b ∈ l
      · rw [if_pos hb, if_pos ⟨hb.1, List.mem_cons_of_mem f hb.2⟩]
      · rw [if_neg hb]
        by_cases hb2 : b ≠ "rdiff-backup-data" ∧ b ∈ f :: l
        · exfalso
          apply hb
          refine ⟨hb2.1, ?_⟩
          cases List.mem_cons.mp hb2.2 with
          | inl he => exact absurd (he.trans hf) hb2.1
          | inr hm => exact hm
        · rw [if_neg hb2]
    · rw [if_neg hf, ih]
      by_cases hb : b ≠ "rdiff-backup-data" ∧ b ∈ l
      · rw [if_pos hb, if_pos ⟨hb.1, List.mem_cons_of_mem f hb.2⟩]
      · rw [if_neg hb]
        unfold updateMap
        by_cases he : b = f
        · subst he
          rw [if_pos rfl, if_pos ⟨hf, List.mem_cons_self b l⟩]
        · rw [if_neg he]
          by_cases hb2 : b ≠ "rdiff-backup-data" ∧ b ∈ f :: l
          · exfalso
            apply hb
            refine ⟨hb2.1, ?_⟩
            cases List.mem_cons.mp hb2.2 with
            | inl hx => exact absurd hx he
            | inr hm => exact hm
          · rw [if_neg hb2]

/-- Loop 1 of the builder computes exactly the declarative mirror seed. -/
theorem seedMirror_spec (env : Env) (b : String) :
    seedMirror env b = seedFor env b := by
  unfold seedMirror seedFor
  rw [seedMirror_fold]

theorem lookupGroup_addRecord (di : List (String × List IncRec)) (b : String)
    (r : IncRec) :
    ∀ b', lookupGroup (addRecord di b r) b' =
      (if b' = b then some ((lookupGroup di b).getD [] ++ [r]) else lookupGroup di b') := by
  induction di with
  | nil =>
    intro b'
    by_cases h : b' = b
    · subst h
      simp [addRecord, lookupGroup]
    · have h2 : ¬ b = b' := fun hx => h hx.symm
      simp [addRecord, lookupGroup, h, h2]
  | cons e rest ih =>
    intro b'
    obtain ⟨k, rs⟩ := e
    by_cases hk : k = b
    · subst hk
      by_cases h : b' = k
      · subst h
        simp [addRecord, lookupGroup]
      · have h2 : ¬ k = b' := fun hx => h hx.symm
        simp [addRecord, lookupGroup, h, h2]
    · by_cases h : b' = k
      · subst h
        simp [addRecord, lookupGroup, hk]
      · have h2 : ¬ k = b' := fun hx => h hx.symm
        simp only [addRecord, lookupGroup, if_neg hk, if_neg h2]
        exact ih b'

theorem lookupGroup_isSome_iff (b : String) :
    ∀ di : List (String × List IncRec), (lookupGroup di b).isSome = true ↔ b ∈ keysOf di := by
  intro di
  induction di with
  | nil => simp [lookupGroup, keysOf]
  | cons e rest ih =>
    obtain ⟨k, rs⟩ := e
    by_cases hk : k = b
    · subst hk
      simp [lookupGroup, keysOf]
    · have hk2 : ¬ b = k := fun hx => hk hx.symm
      simp only [lookupGroup, if_neg hk, keysOf, List.map_cons, List.mem_cons]
      rw [ih]
      simp [hk2, keysOf]

theorem keysOf_addRecord (b : String) (r : IncRec) :
    ∀ di : List (String × List IncRec),
      keysOf (addRecord di b r) =
        (if b ∈ keysOf di then keysOf di else keysOf di ++ [b]) := by
  intro di
  induction di with
  | nil => simp [addRecord, keysOf]
  | cons e rest ih =>
    obtain ⟨k, rs⟩ := e
    by_cases hk : k = b
    · subst hk
      simp [addRecord, keysOf]
    · have hk2 : ¬ b = k := fun hx => hk hx.symm
      simp only [addRecord, if_neg hk, keysOf, List.map_cons]
      rw [show keysOf (addRecord rest b r) = (addRecord rest b r).map Prod.fst from rfl] at ih
      rw [ih]
      by_cases hm : b ∈ keysOf rest
      · rw [if_pos hm, if_pos (show b ∈ k :: List.map Prod.fst rest from
          List.mem_cons_of_mem k hm)]
        rfl
      · rw [if_neg hm, if_neg (show b ∉ k :: List.map Prod.fst rest from by
          rw [List.mem_cons]
          rintro (hx | hx)
          · exact hk2 hx
          · exact hm hx)]
        rfl

theorem nodup_addRecord (b : String) (r : IncRec) (di : List (String × List IncRec))
    (h : (keysOf di).Nodup) : (keysOf (addRecord di b r)).Nodup := by
  rw [keysOf_addRecord]
  by_cases hm : b ∈ keysOf di
  · rw [if_pos hm]; exact h
  · rw [if_neg hm]
    exact List.Nodup.append h (List.nodup_singleton b) (by simp [List.disjoint_left, hm])

theorem scan_nodup (env : Env) (T : String) :
    ∀ (incs : List String) (di di' : List (String × List IncRec)),
      scanIncrements env T di incs = .ok di' → (keysOf di).Nodup → (keysOf di').Nodup := by
  intro incs
  induction incs with
  | nil =>
    intro di di' h hnd
    rw [show scanIncrements env T di [] = .ok di from rfl, Except.ok.injEq] at h
    rw [← h]
    exact hnd
  | cons a rest ih =>
    intro di di' h hnd
    rw [scanIncrements_cons] at h
    cases hA : env.inc_is_reg (joinPath env.increment_dir a) with
    | none => rw [hA] at h; exact ih di di' h hnd
    | some bl =>
      cases bl
      · rw [hA] at h; exact ih di di' h hnd
      · rw [hA] at h
        cases hP : parse_increment_filename a with
        | none => rw [hP] at h; cases h
        | some t =>
          obtain ⟨b1, ts1, ot1⟩ := t
          rw [hP] at h
          dsimp only at h
          by_cases hts : strLe T ts1 = true
          · rw [if_pos hts] at h
            exact ih _ di' h (nodup_addRecord b1 (ts1, ot1, a) di hnd)
          · rw [if_neg hts] at h
            exact ih di di' h hnd

theorem combineG_nil (o : Option (List IncRec)) : combineG o [] = o := by
  cases o <;> simp [combineG]

theorem keptRecordFor_skip (env : Env) (T incf : String)
    (h : env.inc_is_reg (joinPath env.increment_dir incf) = none ∨
         env.inc_is_reg (joinPath env.increment_dir incf) = some false) :
    keptRecordFor env T incf = none := by
  unfold keptRecordFor
  rcases h with h | h <;> rw [h]

theorem keptRecordFor_parsed (env : Env) (T incf b1 ts1 ot1 : String)
    (hA : env.inc_is_reg (joinPath env.increment_dir incf) = some true)
    (hP : parse_increment_filename incf = some (b1, ts1, ot1)) :
    keptRecordFor env T incf =
      (if strLe T ts1 then some (b1, (ts1, ot1, incf)) else none) := by
  unfold keptRecordFor
  rw [hA, hP]

theorem rawGroup_cons (env : Env) (T incf : String) (rest : List String) (b : String) :
    rawGroup env T (incf :: rest) b =
      (match keptRecordFor env T incf with
       | some p => if p.1 = b then p.2 :: rawGroup env T rest b else rawGroup env T rest b
       | none => rawGroup env T rest b) := by
  unfold rawGroup
  rw [List.filterMap_cons]
  cases keptRecordFor env T incf with
  | none => rfl
  | some p =>
    dsimp only [Option.bind]
    by_cases hp : p.1 = b
    · rw [if_pos hp]
      dsimp only
      rw [if_pos hp]
    · rw [if_neg hp]
      dsimp only
      rw [if_neg hp]

theorem scan_lookup (env : Env) (T : String) :
    ∀ (incs : List String) (di di' : List (String × List IncRec)),
      scanIncrements env T di incs = .ok di' →
      ∀ b, lookupGroup di' b = combineG (lookupGroup di b) (rawGroup env T incs b) := by
  intro incs
  induction incs with
  | nil =>
    intro di di' h b
    rw [show scanIncrements env T di [] = .ok di from rfl, Except.ok.injEq] at h
    rw [← h, show rawGroup env T [] b = [] from rfl, combineG_nil]
  | cons a rest ih =>
    intro di di' h b
    rw [scanIncrements_cons] at h
    cases hA : env.inc_is_reg (joinPath env.increment_dir a) with
    | none =>
      rw [hA] at h
      rw [rawGroup_cons, keptRecordFor_skip env T a (Or.inl hA)]
      exact ih di di' h b
    | some bl =>
      cases bl
      · rw [hA] at h
        rw [rawGroup_cons, keptRecordFor_skip env T a (Or.inr hA)]
        exact ih di di' h b
      · rw [hA] at h
        cases hP : parse_increment_filename a with
        | none => rw [hP] at h; cases h
        | some t =>
          obtain ⟨b1, ts1, ot1⟩ := t
          rw [hP] at h
          dsimp only at h
          rw [rawGroup_cons, keptRecordFor_parsed env T a b1 ts1 ot1 hA hP]
          by_cases hts : strLe T ts1 = true
          · rw [if_pos hts] at h ⊢
            rw [ih _ di' h b, lookupGroup_addRecord di b1 (ts1, ot1, a) b]
            dsimp only
            by_cases hb : b = b1
            · subst hb
              rw [if_pos rfl, if_pos rfl]
              cases hl : lookupGroup di b with
              | none => simp [combineG]
              | some rs => simp [combineG]
            · rw [if_neg hb, if_neg (fun hx => hb hx.symm)]
          · rw [if_neg hts] at h ⊢
            exact ih di di' h b

theorem applyStep_other (env : Env) (b : String) (fi : String → Option DeferredFile)
    (r : IncRec) (b' : String) (h : b' ≠ b) :
    applyStep env b fi r b' = fi b' := by
  cases hfb : fi b with
  | none => simp [applyStep, updateMap, hfb, h]
  | some df => simp [applyStep, updateMap, hfb, h]

theorem applyStep_at (env : Env) (b : String) (fi : String → Option DeferredFile)
    (r : IncRec) :
    applyStep env b fi r b =
      some (stepApply env ((fi b).getD (DeferredFile.mkInit b none .NONEXISTENT)) r) := by
  cases hfb : fi b with
  | none => simp [applyStep, updateMap, hfb, stepApply]
  | some df => simp [applyStep, updateMap, hfb, stepApply]

theorem innerFold_other (env : Env) (b : String) :
    ∀ (g : List IncRec) (fi : String → Option DeferredFile) (b' : String), b' ≠ b →
      (g.foldl (applyStep env b) fi) b' = fi b' := by
  intro g
  induction g with
  | nil => intro fi b' _; rfl
  | cons r g ih =>
    intro fi b' h
    rw [List.foldl_cons, ih _ b' h, applyStep_other env b fi r b' h]

theorem innerFold_some (env : Env) (b : String) :
    ∀ (g : List IncRec) (fi : String → Option DeferredFile) (df : DeferredFile),
      fi b = some df →
      (g.foldl (applyStep env b) fi) b = some (g.foldl (stepApply env) df) := by
  intro g
  induction g with
  | nil => intro fi df h; exact h
  | cons r g ih =>
    intro fi df h
    rw [List.foldl_cons, List.foldl_cons]
    apply ih
    rw [applyStep_at, h]
    rfl

theorem innerFold_at (env : Env) (b : String) (g : List IncRec)
    (fi : String → Option DeferredFile) (hne : g ≠ []) :
    (g.foldl (applyStep env b) fi) b =
      some (g.foldl (stepApply env)
        ((fi b).getD (DeferredFile.mkInit b none .NONEXISTENT))) := by
  cases g with
  | nil => exact absurd rfl hne
  | cons r g =>
    rw [List.foldl_cons, List.foldl_cons]
    apply innerFold_some
    rw [applyStep_at]

theorem applyGroups_other (env : Env) :
    ∀ (di : List (String × List IncRec)) (fi : String → Option DeferredFile) (b : String),
      b ∉ keysOf di → applyGroups env di fi b = fi b := by
  intro di
  induction di with
  | nil => intro fi b _; rfl
  | cons e rest ih =>
    intro fi b h
    obtain ⟨k, rs⟩ := e
    rw [show b ∉ keysOf ((k, rs) :: rest) ↔ ¬(b = k ∨ b ∈ keysOf rest) from by
      simp [keysOf]] at h
    push_neg at h
    rw [show applyGroups env ((k, rs) :: rest) fi =
      applyGroups env rest ((List.insertionSort recDesc rs).foldl (applyStep env k) fi)
      from rfl]
    rw [ih _ b h.2]
    exact innerFold_other env k _ fi b h.1

theorem applyGroups_lookup (env : Env) :
    ∀ (di : List (String × List IncRec)) (fi : String → Option DeferredFile) (b : String),
      (keysOf di).Nodup →
      applyGroups env di fi b =
        (match lookupGroup di b with
         | none => fi b
         | some rs =>
           match List.insertionSort recDesc rs with
           | [] => fi b
           | g => some (g.foldl (stepApply env)
               ((fi b).getD (DeferredFile.mkInit b none .NONEXISTENT)))) := by
  intro di
  induction di with
  | nil => intro fi b _; rfl
  | cons e rest ih =>
    intro fi b hnd
    obtain ⟨k, rs⟩ := e
    have hk_notin : k ∉ keysOf rest := by
      have := hnd
      rw [show keysOf ((k, rs) :: rest) = k :: keysOf rest from rfl, List.nodup_cons] at this
      exact this.1
    have hnd' : (keysOf rest).Nodup := by
      have := hnd
      rw [show keysOf ((k, rs) :: rest) = k :: keysOf rest from rfl, List.nodup_cons] at this
      exact this.2
    rw [show applyGroups env ((k, rs) :: rest) fi =
      applyGroups env rest ((List.insertionSort recDesc rs).foldl (applyStep env k) fi)
      from rfl]
    by_cases hb : b = k
    · subst hb
      rw [applyGroups_other env rest _ b hk_notin]
      rw [show lookupGroup ((b, rs) :: rest) b = some rs from by
        unfold lookupGroup; rw [if_pos rfl]]
      dsimp only
      cases hg : List.insertionSort recDesc rs with
      | nil => rfl
      | cons s0 sg =>
        rw [innerFold_at env b (s0 :: sg) fi (List.cons_ne_nil s0 sg)]
    · rw [ih _ b hnd']
      have hfb : ((List.insertionSort recDesc rs).foldl (applyStep env k) fi) b = fi b :=
        innerFold_other env k _ fi b hb
      rw [show lookupGroup ((k, rs) :: rest) b =
            (if k = b then some rs else lookupGroup rest b) from rfl,
        if_neg (fun hx => hb hx.symm)]
      cases lookupGroup rest b with
      | none => exact hfb
      | some rs' =>
        dsimp only
        cases List.insertionSort recDesc rs' with
        | nil => exact hfb
        | cons s0 sg => rw [hfb]

theorem lexLe_total : ∀ a b : List Char, lexLe a b = true ∨ lexLe b a = true := by
  intro a
  induction a with
  | nil => intro b; left; rfl
  | cons c cs ih =>
    intro b
    cases b with
    | nil => right; rfl
    | cons d ds =>
      by_cases hcd : c = d
      · subst hcd
        rw [show lexLe (c :: cs) (c :: ds) = lexLe cs ds from by simp [lexLe],
          show lexLe (c :: ds) (c :: cs) = lexLe ds cs from by simp [lexLe]]
        exact ih ds
      · have hdc : ¬ d = c := fun hx => hcd hx.symm
        rw [show lexLe (c :: cs) (d :: ds) = decide (c < d) from by simp [lexLe, hcd],
          show lexLe (d :: ds) (c :: cs) = decide (d < c) from by simp [lexLe, hdc]]
        rcases lt_or_gt_of_ne hcd with hlt | hgt
        · left; exact decide_eq_true hlt
        · right; exact decide_eq_true hgt

theorem lexLe_trans :
    ∀ a b c : List Char, lexLe a b = true → lexLe b c = true → lexLe a c = true := by
  intro a
  induction a with
  | nil => intro b c _ _; rfl
  | cons x xs ih =>
    intro b c h1 h2
    cases b with
    | nil => simp [lexLe] at h1
    | cons y ys =>
      cases c with
      | nil => simp [lexLe] at h2
      | cons z zs =>
        by_cases hxy : x = y
        · subst hxy
          rw [show lexLe (x :: xs) (x :: ys) = lexLe xs ys from by simp [lexLe]] at h1
          by_cases hyz : x = z
          · subst hyz
            rw [show lexLe (x :: ys) (x :: zs) = lexLe ys zs from by simp [lexLe]] at h2
            rw [show lexLe (x :: xs) (x :: zs) = lexLe xs zs from by simp [lexLe]]
            exact ih ys zs h1 h2
          · rw [show lexLe (x :: ys) (z :: zs) = decide (x < z) from by
              simp [lexLe, hyz]] at h2
            rw [show lexLe (x :: xs) (z :: zs) = decide (x < z) from by simp [lexLe, hyz]]
            exact h2
        · rw [show lexLe (x :: xs) (y :: ys) = decide (x < y) from by simp [lexLe, hxy]] at h1
          have hxy' : x < y := of_decide_eq_true h1
          by_cases hyz : y = z
          · subst hyz
            have hxz : x ≠ y := hxy
            rw [show lexLe (x :: xs) (y :: zs) = decide (x < y) from by simp [lexLe, hxy]]
            exact h1
          · rw [show lexLe (y :: ys) (z :: zs) = decide (y < z) from by simp [lexLe, hyz]] at h2
            have hyz' : y < z := of_decide_eq_true h2
            have hxz' : x < z := lt_trans hxy' hyz'
            rw [show lexLe (x :: xs) (z :: zs) = decide (x < z) from by
              simp [lexLe, ne_of_lt hxz']]
            exact decide_eq_true hxz'

instance : IsTotal IncRec recDesc :=
  ⟨fun a b => by
    unfold recDesc strLe
    rcases lexLe_total b.1.data a.1.data with h | h
    · exact Or.inl h
    · exact Or.inr h⟩

instance : IsTrans IncRec recDesc :=
  ⟨fun a b c h1 h2 => by
    unfold recDesc strLe at h1 h2 ⊢
    exact lexLe_trans c.1.data b.1.data a.1.data h2 h1⟩

/-- C1: when `build_deferred_dir` returns a directory for snapshot id `T`,
the deferred file it holds for each basename is exactly the fold of
`DeferredFile.apply` over that basename's kept records — the parsed,
regular-file increment entries with timestamp lexicographically `>= T`
(boundary inclusive) — grouped by basename and sorted by timestamp in
descending order, starting from the mirror seed, or from a freshly created
NONEXISTENT deferred file when the basename is absent from the mirror
listing; the applied list is sorted descending and is a permutation of the
kept group. -/
theorem build_deferred_dir_characterization (env : Env) (T : String)
    (dir : String → Option DeferredFile)
    (h : RdiffSnapshotFs.build_deferred_dir env T = .ok dir) (b : String) :
    dir b = reconstructFile env T b ∧
    List.Sorted recDesc (List.insertionSort recDesc (groupFor env T b)) ∧
    (List.insertionSort recDesc (groupFor env T b)).Perm (groupFor env T b) := by
  refine ⟨?_, List.sorted_insertionSort recDesc _, List.perm_insertionSort recDesc _⟩
  unfold RdiffSnapshotFs.build_deferred_dir at h
  cases hs : scanIncrements env T [] (env.increment_files.getD []) with
  | error e => rw [hs] at h; cases h
  | ok di =>
    rw [hs] at h
    dsimp only at h
    rw [Except.ok.injEq] at h
    subst h
    have hnd : (keysOf di).Nodup :=
      scan_nodup env T _ [] di hs (by simp [keysOf])
    have hlk := scan_lookup env T _ [] di hs b
    rw [show lookupGroup ([] : List (String × List IncRec)) b = none from rfl] at hlk
    rw [show rawGroup env T (env.increment_files.getD []) b = groupFor env T b
      from rfl] at hlk
    rw [applyGroups_lookup env di (seedMirror env) b hnd, hlk]
    unfold reconstructFile
    cases hraw : groupFor env T b with
    | nil =>
      rw [show combineG none ([] : List IncRec) = none from rfl]
      dsimp only
      rw [seedMirror_spec]
      rw [show List.insertionSort recDesc ([] : List IncRec) = [] from rfl]
      cases seedFor env b with
      | none => rfl
      | some s => rfl
    | cons c g =>
      rw [show combineG none (c :: g) = some (c :: g) from rfl]
      dsimp only
      cases hsort : List.insertionSort recDesc (c :: g) with
      | nil =>
        exfalso
        have hperm := List.perm_insertionSort recDesc (c :: g)
        rw [hsort] at hperm
        have := hperm.length_eq
        simp at this
      | cons s0 sg =>
        dsimp only
        rw [seedMirror_spec]
        cases seedFor env b with
        | none => rfl
        | some s => rfl

/-- Closed instantiation of `build_deferred_dir_characterization` on a small
concrete repository. -/
theorem build_deferred_dir_characterization_witness :
    (match RdiffSnapshotFs.build_deferred_dir envC1 "2000-01-01T00:00:00-05:00" with
     | .ok d => d
     | .error _ => fun _ => none) "a" =
      reconstructFile envC1 "2000-01-01T00:00:00-05:00" "a" ∧
    List.Sorted recDesc (List.insertionSort recDesc
      (groupFor envC1 "2000-01-01T00:00:00-05:00" "a")) ∧
    (List.insertionSort recDesc
      (groupFor envC1 "2000-01-01T00:00:00-05:00" "a")).Perm
      (groupFor envC1 "2000-01-01T00:00:00-05:00" "a") :=
  build_deferred_dir_characterization envC1 "2000-01-01T00:00:00-05:00"
    (match RdiffSnapshotFs.build_deferred_dir envC1 "2000-01-01T00:00:00-05:00" with
     | .ok d => d
     | .error _ => fun _ => none) rfl "a"
